import Mathlib

/-!
Verification of the dynamic edge-costing contract of the valhalla routing
repository. The repository ships only the abstract interface declaration
(src/valhalla/thor/dynamiccost.h); every method body, the HierarchyLimits
record (valhalla/thor/hierarchylimits.h) and the DirectedEdge and NodeInfo
views (valhalla/baldr) live outside src, so their behaviour is modelled
from the specification and checked against it here. Costs and distances
are embedded as rationals; integer attributes as naturals.
-/

namespace Valhalla

/-- Modelled from the spec: valhalla/baldr/directededge.h is not in src.
The EdgeView attributes the costing contract reads: access-mode bitmask,
local edge index at the end node, not-thru flag, hierarchy level, length
in meters and speed in kph. -/
structure DirectedEdge where
  forwardaccess : Nat
  localedgeidx : Nat
  not_thru : Bool
  level : Nat
  length : Nat
  speed : Nat
  deriving DecidableEq

/-- Modelled from the spec: valhalla/baldr/nodeinfo.h is not in src.
The NodeView attributes read by node-level access checks: gate and
bollard flags. -/
structure NodeInfo where
  gate : Bool
  bollard : Bool
  deriving DecidableEq

/-- Modelled from the spec: valhalla/thor/hierarchylimits.h is not in src.
One bookkeeping record per hierarchy level: a mutable search-scoped
up-transition counter, the fixed cap on up transitions, and the
distance-based expansion threshold. -/
structure HierarchyLimits where
  up_transition_count : Nat
  max_up_transitions : Nat
  expansion_within_dist : ℚ
  deriving DecidableEq

/-- Modelled from the spec: expansion at a level is blocked when the
up-transition count exceeds its cap or the distance-based threshold is
exceeded (spec section 4.1 state machine). -/
def HierarchyLimits.StopExpanding (h : HierarchyLimits) (dist : ℚ) : Bool :=
  decide (h.max_up_transitions < h.up_transition_count ∨ h.expansion_within_dist < dist)

/-- Modelled from the spec: the derived expansion-still-permitted query,
the negation of StopExpanding. -/
def HierarchyLimits.mayExpand (h : HierarchyLimits) (dist : ℚ) : Bool :=
  !(h.StopExpanding dist)

/-- Modelled from the spec: the search engine increments the up-transition
counter whenever an expanded edge crosses up a hierarchy level. -/
def HierarchyLimits.IncrementUpCount (h : HierarchyLimits) : HierarchyLimits :=
  { h with up_transition_count := h.up_transition_count + 1 }

/-- Modelled from the spec: the counter resets to zero only when a new
search begins. -/
def HierarchyLimits.Reset (h : HierarchyLimits) : HierarchyLimits :=
  { h with up_transition_count := 0 }

/-- Modelled from the spec: the mode-specific configuration parsed once at
construction from the property tree and immutable thereafter: allowed
access mask, u-turn policy, gate and bollard traversability, maximum
feasible speed in kph, a non-negative distance blending coefficient for
the generalized cost, the sorting unit size, the hierarchy-transition
policy flag with its documented base default of true, and per-level
hierarchy caps and expansion thresholds. -/
structure Config where
  access_mask : Nat
  forbids_uturn : Bool
  passes_gates : Bool
  passes_bollards : Bool
  max_speed : Nat
  distance_cost : ℚ
  unit_size : ℚ
  allow_transitions : Bool := true
  num_levels : Nat
  max_up_transitions : List Nat
  expansion_within_dist : List ℚ
  deriving DecidableEq

/-- Modelled from the spec: construction-time validation (spec section 7).
A zero maximum speed, a non-positive unit size, a negative distance
coefficient, or per-level tables whose length differs from the configured
number of hierarchy levels are configuration errors, rejected before any
search begins. -/
def Config.valid (pt : Config) : Prop :=
  0 < pt.max_speed ∧ 0 < pt.unit_size ∧ 0 ≤ pt.distance_cost ∧
  pt.max_up_transitions.length = pt.num_levels ∧
  pt.expansion_within_dist.length = pt.num_levels

instance (pt : Config) : Decidable pt.valid := by
  unfold Config.valid
  infer_instance

/-- Modelled from the spec: the DynamicCost state, an immutable
configuration plus the two pieces of per-search mutable state declared in
dynamiccost.h: the per-level hierarchy limits and the not-thru guard
distance. -/
structure DynamicCost where
  config : Config
  hierarchy_limits_ : List HierarchyLimits
  not_thru_distance_ : ℚ
  deriving DecidableEq

/-- Modelled from the spec: the initial per-level hierarchy limits, one
record per level with a zero up-transition count and the configured cap
and threshold. -/
def initHierarchyLimits (pt : Config) : List HierarchyLimits :=
  List.zipWith
    (fun m dist =>
      { up_transition_count := 0, max_up_transitions := m,
        expansion_within_dist := dist })
    pt.max_up_transitions pt.expansion_within_dist

/-- Modelled from the spec: the DynamicCost constructor (its body is in a
source file outside src). It validates the configuration, builds one
HierarchyLimits record per level, and leaves the not-thru distance at its
maximally restrictive default of zero. -/
def construct (pt : Config) : Option DynamicCost :=
  if pt.valid then
    some { config := pt, hierarchy_limits_ := initHierarchyLimits pt,
           not_thru_distance_ := 0 }
  else none

/-- Modelled from the spec: AllowTransitions, default result true, read
from the configuration flag a mode may override. -/
def DynamicCost.AllowTransitions (dc : DynamicCost) : Bool :=
  dc.config.allow_transitions

/-- Modelled from the spec: the edge-level Allowed check, declared pure
virtual in dynamiccost.h. Four checks in priority order, returning false
at the first failing one: access-mask compatibility, turn restriction of
the local edge index against the restriction mask, the u-turn policy, and
the not-thru guard against the distance to destination. -/
def DynamicCost.Allowed (dc : DynamicCost) (e : DirectedEdge)
    (restriction : Nat) (uturn : Bool) (dist2dest : ℚ) : Bool :=
  if e.forwardaccess &&& dc.config.access_mask = 0 then false
  else if restriction &&& (1 <<< e.localedgeidx) ≠ 0 then false
  else if uturn = true ∧ dc.config.forbids_uturn = true then false
  else if e.not_thru = true ∧ dc.not_thru_distance_ < dist2dest then false
  else true

/-- Modelled from the spec: the node-level Allowed check, false when the
node is gated or bollarded against the mode. -/
def DynamicCost.AllowedNode (dc : DynamicCost) (n : NodeInfo) : Bool :=
  !((n.gate && !dc.config.passes_gates) || (n.bollard && !dc.config.passes_bollards))

/-- Modelled from the spec: traversal time in seconds, edge length over
edge speed. -/
def DynamicCost.Seconds (dc : DynamicCost) (e : DirectedEdge) : ℚ :=
  (e.length : ℚ) / (e.speed : ℚ)

/-- Modelled from the spec: the generalized cost, blending traversal time
with a non-negative per-distance term. -/
def DynamicCost.Get (dc : DynamicCost) (e : DirectedEdge) : ℚ :=
  dc.Seconds e + dc.config.distance_cost * (e.length : ℚ)

/-- Modelled from the spec: the A-star heuristic factor, the reciprocal of
the maximum feasible speed of the mode. -/
def DynamicCost.AStarCostFactor (dc : DynamicCost) : ℚ :=
  1 / (dc.config.max_speed : ℚ)

/-- Modelled from the spec: the bucket width for the approximate priority
queue. -/
def DynamicCost.UnitSize (dc : DynamicCost) : ℚ :=
  dc.config.unit_size

/-- Modelled from the spec: sets the distance from the destination inside
which not-thru edges stay traversable. -/
def DynamicCost.set_not_thru_distance (dc : DynamicCost) (d : ℚ) : DynamicCost :=
  { dc with not_thru_distance_ := d }

/-- Modelled from the spec: accessor for the per-level hierarchy limits
sequence. -/
def DynamicCost.GetHierarchyLimits (dc : DynamicCost) : List HierarchyLimits :=
  dc.hierarchy_limits_

/-- Modelled from the spec: a mutation performed by the search engine
through the reference GetHierarchyLimits returns, embedded as an update
of the underlying state. -/
def DynamicCost.modifyHierarchyLimits (dc : DynamicCost)
    (f : List HierarchyLimits → List HierarchyLimits) : DynamicCost :=
  { dc with hierarchy_limits_ := f dc.hierarchy_limits_ }

/-- Modelled from the spec: the edge-level Allowed call in method-call
form, returning the result together with the state of the instance after
the call. -/
def DynamicCost.AllowedCall (dc : DynamicCost) (e : DirectedEdge)
    (restriction : Nat) (uturn : Bool) (dist2dest : ℚ) : Bool × DynamicCost :=
  (dc.Allowed e restriction uturn dist2dest, dc)

/-- Modelled from the spec: the node-level Allowed call in method-call
form. -/
def DynamicCost.AllowedNodeCall (dc : DynamicCost) (n : NodeInfo) :
    Bool × DynamicCost :=
  (dc.AllowedNode n, dc)

/-- Total length of a path, the sum of its edge lengths. -/
def pathLength : List DirectedEdge → ℚ
  | [] => 0
  | e :: p => (e.length : ℚ) + pathLength p

/-- Total generalized cost of a path under a costing model. -/
def DynamicCost.pathCost (dc : DynamicCost) : List DirectedEdge → ℚ
  | [] => 0
  | e :: p => dc.Get e + dc.pathCost p

/-- A concrete automobile-like configuration used to witness the
theorems below. -/
def sampleConfig : Config :=
  { access_mask := 1, forbids_uturn := true, passes_gates := false,
    passes_bollards := false, max_speed := 100, distance_cost := 0,
    unit_size := 1, allow_transitions := true, num_levels := 2,
    max_up_transitions := [2, 5], expansion_within_dist := [1000, 400] }

/-- The costing instance the sample configuration constructs. -/
def sampleDC : DynamicCost :=
  { config := sampleConfig,
    hierarchy_limits_ :=
      [{ up_transition_count := 0, max_up_transitions := 2,
         expansion_within_dist := 1000 },
       { up_transition_count := 0, max_up_transitions := 5,
         expansion_within_dist := 400 }],
    not_thru_distance_ := 0 }

/-- A sample configuration overriding the hierarchy-transition default. -/
def noTransDC : DynamicCost :=
  { sampleDC with config := { sampleConfig with allow_transitions := false } }

/-- A plain traversable edge. -/
def sampleEdge : DirectedEdge :=
  { forwardaccess := 1, localedgeidx := 3, not_thru := false, level := 0,
    length := 100, speed := 50 }

/-- A not-thru edge. -/
def ntEdge : DirectedEdge :=
  { forwardaccess := 1, localedgeidx := 0, not_thru := true, level := 0,
    length := 10, speed := 30 }

/-- An unrestricted node. -/
def sampleNode : NodeInfo :=
  { gate := false, bollard := false }

theorem construct_some {pt : Config} {dc : DynamicCost}
    (h : construct pt = some dc) :
    pt.valid ∧
      dc = { config := pt, hierarchy_limits_ := initHierarchyLimits pt,
             not_thru_distance_ := 0 } := by
  by_cases hv : pt.valid
  · refine ⟨hv, ?_⟩
    simp only [construct, if_pos hv, Option.some.injEq] at h
    exact h.symm
  · simp [construct, hv] at h

theorem initHL_count_zero (a : List Nat) (b : List ℚ) :
    ∀ x ∈ List.zipWith
      (fun m dist =>
        ({ up_transition_count := 0, max_up_transitions := m,
           expansion_within_dist := dist } : HierarchyLimits)) a b,
      x.up_transition_count = 0 := by
  induction a generalizing b with
  | nil => simp
  | cons m a ih =>
    cases b with
    | nil => simp
    | cons dist b =>
      intro x hx
      simp only [List.zipWith, List.mem_cons] at hx
      rcases hx with hx | hx
      · rw [hx]
      · exact ih b x hx

/-- Claim C10: set_not_thru_distance writes only the not-thru distance
field: the hierarchy limits sequence and the configuration are unchanged
and the field afterwards equals the argument. -/
theorem set_not_thru_distance_frame (dc : DynamicCost) (d : ℚ) :
    (dc.set_not_thru_distance d).hierarchy_limits_ = dc.hierarchy_limits_ ∧
    (dc.set_not_thru_distance d).not_thru_distance_ = d ∧
    (dc.set_not_thru_distance d).config = dc.config :=
  ⟨rfl, rfl, rfl⟩

theorem set_not_thru_distance_frame_w :
    (sampleDC.set_not_thru_distance 7).hierarchy_limits_ = sampleDC.hierarchy_limits_ ∧
    (sampleDC.set_not_thru_distance 7).not_thru_distance_ = 7 ∧
    (sampleDC.set_not_thru_distance 7).config = sampleDC.config :=
  set_not_thru_distance_frame sampleDC 7

/-- Claim C7: every successfully configured costing model has a strictly
positive unit size. -/
theorem UnitSize_pos (pt : Config) (dc : DynamicCost)
    (hc : construct pt = some dc) : 0 < dc.UnitSize := by
  obtain ⟨hv, hdc⟩ := construct_some hc
  rw [hdc]
  exact hv.2.1

theorem UnitSize_pos_w : 0 < sampleDC.UnitSize :=
  UnitSize_pos sampleConfig sampleDC (by decide)

/-- Claim C1: edge-level Allowed is the four-check chain evaluated in
priority order: the result is true exactly when every check passes, and
each individual failing check forces a false result. -/
theorem Allowed_check_priority (dc : DynamicCost) (e : DirectedEdge)
    (restriction : Nat) (uturn : Bool) (dist2dest : ℚ) :
    (dc.Allowed e restriction uturn dist2dest = true ↔
      (e.forwardaccess &&& dc.config.access_mask ≠ 0 ∧
       restriction &&& (1 <<< e.localedgeidx) = 0 ∧
       ¬(uturn = true ∧ dc.config.forbids_uturn = true) ∧
       ¬(e.not_thru = true ∧ dc.not_thru_distance_ < dist2dest))) ∧
    (e.forwardaccess &&& dc.config.access_mask = 0 →
      dc.Allowed e restriction uturn dist2dest = false) ∧
    (restriction &&& (1 <<< e.localedgeidx) ≠ 0 →
      dc.Allowed e restriction uturn dist2dest = false) ∧
    (uturn = true → dc.config.forbids_uturn = true →
      dc.Allowed e restriction uturn dist2dest = false) ∧
    (e.not_thru = true → dc.not_thru_distance_ < dist2dest →
      dc.Allowed e restriction uturn dist2dest = false) := by
  unfold DynamicCost.Allowed
  split_ifs with h1 h2 h3 h4 <;> simp_all

theorem Allowed_check_priority_w :
    sampleDC.Allowed sampleEdge 0 false 5 = true :=
  ((Allowed_check_priority sampleDC sampleEdge 0 false 5).1).mpr (by decide)

/-- Claim C4: a freshly constructed instance has a not-thru distance of
zero, and is maximally restrictive: every not-thru edge at any positive
distance to the destination is denied. -/
theorem fresh_not_thru_zero (pt : Config) (dc : DynamicCost)
    (e : DirectedEdge) (restriction : Nat) (uturn : Bool) (d : ℚ)
    (hc : construct pt = some dc) (hnt : e.not_thru = true) (hd : 0 < d) :
    dc.not_thru_distance_ = 0 ∧ dc.Allowed e restriction uturn d = false := by
  obtain ⟨hv, hdc⟩ := construct_some hc
  subst hdc
  refine ⟨rfl, ?_⟩
  unfold DynamicCost.Allowed
  split_ifs with h1 h2 h3 h4 <;> simp_all

theorem fresh_not_thru_zero_w :
    sampleDC.not_thru_distance_ = 0 ∧ sampleDC.Allowed ntEdge 0 false 1 = false :=
  fresh_not_thru_zero sampleConfig sampleDC ntEdge 0 false 1 (by decide) rfl
    (by norm_num)

/-- Claim C8: AllowTransitions is a pure query of the configuration; any
instance whose configuration keeps the documented default flag answers
true, and a concrete mode overriding the flag answers false. -/
theorem AllowTransitions_default (dc dc2 : DynamicCost)
    (h : dc.config.allow_transitions = true)
    (h2 : dc2.config.allow_transitions = false) :
    dc.AllowTransitions = true ∧ dc2.AllowTransitions = false :=
  ⟨h, h2⟩

theorem AllowTransitions_default_w :
    sampleDC.AllowTransitions = true ∧ noTransDC.AllowTransitions = false :=
  AllowTransitions_default sampleDC noTransDC rfl rfl

/-- Claim C9: both Allowed overloads leave the instance state unchanged,
and their results depend only on the configuration and the not-thru
distance: two calls with equal arguments on equal relevant state return
equal results. -/
theorem Allowed_pure (dc dc2 : DynamicCost) (e : DirectedEdge)
    (restriction : Nat) (uturn : Bool) (d : ℚ) (n : NodeInfo)
    (h1 : dc2.config = dc.config)
    (h2 : dc2.not_thru_distance_ = dc.not_thru_distance_) :
    (dc.AllowedCall e restriction uturn d).2 = dc ∧
    (dc.AllowedNodeCall n).2 = dc ∧
    dc2.Allowed e restriction uturn d = dc.Allowed e restriction uturn d ∧
    dc2.AllowedNode n = dc.AllowedNode n := by
  refine ⟨rfl, rfl, ?_, ?_⟩
  · unfold DynamicCost.Allowed
    rw [h1, h2]
  · unfold DynamicCost.AllowedNode
    rw [h1]

theorem Allowed_pure_w :
    (sampleDC.AllowedCall sampleEdge 0 false 5).2 = sampleDC ∧
    (sampleDC.AllowedNodeCall sampleNode).2 = sampleDC ∧
    sampleDC.Allowed sampleEdge 0 false 5 = sampleDC.Allowed sampleEdge 0 false 5 ∧
    sampleDC.AllowedNode sampleNode = sampleDC.AllowedNode sampleNode :=
  Allowed_pure sampleDC sampleDC sampleEdge 0 false 5 sampleNode rfl rfl

/-- Claim C3: on any successfully configured model, whenever the edge is
allowed, both the generalized cost and the traversal time are
non-negative (and, being rationals of the model, finite). -/
theorem Get_Seconds_nonneg (pt : Config) (dc : DynamicCost)
    (e : DirectedEdge) (restriction : Nat) (uturn : Bool) (d : ℚ)
    (hc : construct pt = some dc)
    (ha : dc.Allowed e restriction uturn d = true) :
    0 ≤ dc.Get e ∧ 0 ≤ dc.Seconds e := by
  obtain ⟨hv, hdc⟩ := construct_some hc
  have hsec : 0 ≤ dc.Seconds e :=
    div_nonneg (Nat.cast_nonneg _) (Nat.cast_nonneg _)
  refine ⟨?_, hsec⟩
  have hdist : 0 ≤ dc.config.distance_cost * (e.length : ℚ) := by
    apply mul_nonneg _ (Nat.cast_nonneg _)
    rw [hdc]
    exact hv.2.2.1
  exact add_nonneg hsec hdist

theorem Get_Seconds_nonneg_w :
    0 ≤ sampleDC.Get sampleEdge ∧ 0 ≤ sampleDC.Seconds sampleEdge :=
  Get_Seconds_nonneg sampleConfig sampleDC sampleEdge 0 false 5 (by decide)
    (by decide)

theorem pathCost_lower (dc : DynamicCost)
    (hM : 0 < dc.config.max_speed) (hdc : 0 ≤ dc.config.distance_cost)
    (p : List DirectedEdge)
    (hsp : ∀ e ∈ p, 0 < e.speed ∧ e.speed ≤ dc.config.max_speed) :
    dc.AStarCostFactor * pathLength p ≤ dc.pathCost p := by
  induction p with
  | nil => simp [pathLength, DynamicCost.pathCost]
  | cons e p ih =>
    have he := hsp e (List.mem_cons_self e p)
    have hrest := fun x hx => hsp x (List.mem_cons_of_mem e hx)
    have hs : (0 : ℚ) < (e.speed : ℚ) := by exact_mod_cast he.1
    have hsM : (e.speed : ℚ) ≤ (dc.config.max_speed : ℚ) := by
      exact_mod_cast he.2
    have hedge : dc.AStarCostFactor * (e.length : ℚ) ≤ dc.Get e := by
      have h1 : (1 : ℚ) / (dc.config.max_speed : ℚ) ≤ 1 / (e.speed : ℚ) :=
        one_div_le_one_div_of_le hs hsM
      have h2 : dc.AStarCostFactor * (e.length : ℚ) ≤
          1 / (e.speed : ℚ) * (e.length : ℚ) :=
        mul_le_mul_of_nonneg_right h1 (Nat.cast_nonneg _)
      have h3 : 1 / (e.speed : ℚ) * (e.length : ℚ) = dc.Seconds e := by
        rw [DynamicCost.Seconds, one_div, inv_mul_eq_div]
      have h4 : dc.Seconds e ≤ dc.Get e :=
        le_add_of_nonneg_right (mul_nonneg hdc (Nat.cast_nonneg _))
      calc dc.AStarCostFactor * (e.length : ℚ)
          ≤ 1 / (e.speed : ℚ) * (e.length : ℚ) := h2
        _ = dc.Seconds e := h3
        _ ≤ dc.Get e := h4
    calc dc.AStarCostFactor * pathLength (e :: p)
        = dc.AStarCostFactor * (e.length : ℚ) +
          dc.AStarCostFactor * pathLength p := by
          rw [pathLength, mul_add]
      _ ≤ dc.Get e + dc.pathCost p := add_le_add hedge (ih hrest)
      _ = dc.pathCost (e :: p) := rfl

/-- Claim C2: on any successfully configured model the heuristic factor
is positive and equals the reciprocal of the maximum feasible speed, and
for any straight-line distance bounded by the length of a connecting
path whose edges respect the maximum feasible speed, the factor times
that distance never exceeds the cost of the path, hence never the
minimal cost between the two points. -/
theorem AStarCostFactor_admissible (pt : Config) (dc : DynamicCost)
    (p : List DirectedEdge) (d : ℚ)
    (hc : construct pt = some dc)
    (hsp : ∀ e ∈ p, 0 < e.speed ∧ e.speed ≤ dc.config.max_speed)
    (hd0 : 0 ≤ d) (hdl : d ≤ pathLength p) :
    0 < dc.AStarCostFactor ∧
    dc.AStarCostFactor = 1 / (dc.config.max_speed : ℚ) ∧
    dc.AStarCostFactor * d ≤ dc.pathCost p := by
  obtain ⟨hv, hdc⟩ := construct_some hc
  have hM : 0 < dc.config.max_speed := by rw [hdc]; exact hv.1
  have hMq : (0 : ℚ) < (dc.config.max_speed : ℚ) := by exact_mod_cast hM
  have hfac : 0 < dc.AStarCostFactor := by
    rw [DynamicCost.AStarCostFactor]
    exact one_div_pos.mpr hMq
  have hcost : 0 ≤ dc.config.distance_cost := by rw [hdc]; exact hv.2.2.1
  refine ⟨hfac, rfl, ?_⟩
  calc dc.AStarCostFactor * d
      ≤ dc.AStarCostFactor * pathLength p :=
        mul_le_mul_of_nonneg_left hdl (le_of_lt hfac)
    _ ≤ dc.pathCost p := pathCost_lower dc hM hcost p hsp

theorem AStarCostFactor_admissible_w :
    0 < sampleDC.AStarCostFactor ∧
    sampleDC.AStarCostFactor = 1 / (sampleDC.config.max_speed : ℚ) ∧
    sampleDC.AStarCostFactor * 50 ≤ sampleDC.pathCost [sampleEdge] :=
  AStarCostFactor_admissible sampleConfig sampleDC [sampleEdge] 50
    (by decide) (by decide) (by norm_num)
    (by norm_num [pathLength, sampleEdge])

/-- Claim C5: the per-level expansion state machine. A freshly
constructed instance starts every level with a zero transition count
(expansion allowed); a level blocks exactly when its counter exceeds the
cap or the distance threshold is exceeded; a blocked level never
unblocks under the increments a search performs; below the cap and
within the threshold the may-expand query answers true; once the cap is
exceeded it answers false; resetting for a new search restores true. -/
theorem hierarchy_expansion (pt : Config) (dc : DynamicCost)
    (l hl : HierarchyLimits) (dist : ℚ)
    (hc : construct pt = some dc) (hmem : l ∈ dc.GetHierarchyLimits) :
    l.up_transition_count = 0 ∧
    (hl.StopExpanding dist = true ↔
      (hl.max_up_transitions < hl.up_transition_count ∨
       hl.expansion_within_dist < dist)) ∧
    (hl.StopExpanding dist = true →
      hl.IncrementUpCount.StopExpanding dist = true) ∧
    (hl.up_transition_count ≤ hl.max_up_transitions →
      dist ≤ hl.expansion_within_dist → hl.mayExpand dist = true) ∧
    (hl.max_up_transitions < hl.up_transition_count →
      hl.mayExpand dist = false) ∧
    (dist ≤ hl.expansion_within_dist → hl.Reset.mayExpand dist = true) := by
  obtain ⟨hv, hdc⟩ := construct_some hc
  refine ⟨?_, ?_, ?_, ?_, ?_, ?_⟩
  · rw [hdc] at hmem
    exact initHL_count_zero pt.max_up_transitions pt.expansion_within_dist
      l hmem
  · simp [HierarchyLimits.StopExpanding]
  · intro hstop
    simp only [HierarchyLimits.StopExpanding, decide_eq_true_eq,
      HierarchyLimits.IncrementUpCount] at hstop ⊢
    rcases hstop with hcnt | hdist
    · exact Or.inl (Nat.lt_succ_of_lt hcnt)
    · exact Or.inr hdist
  · intro hcnt hdist
    simp [HierarchyLimits.mayExpand, HierarchyLimits.StopExpanding,
      not_lt.mpr hcnt, not_lt.mpr hdist]
  · intro hcnt
    simp [HierarchyLimits.mayExpand, HierarchyLimits.StopExpanding, hcnt]
  · intro hdist
    simp [HierarchyLimits.mayExpand, HierarchyLimits.StopExpanding,
      HierarchyLimits.Reset, not_lt.mpr hdist]

theorem hierarchy_expansion_w :
    ({ up_transition_count := 0, max_up_transitions := 2,
       expansion_within_dist := 1000 } : HierarchyLimits).up_transition_count
      = 0 ∧
    (({ up_transition_count := 3, max_up_transitions := 2,
        expansion_within_dist := 100 } : HierarchyLimits).StopExpanding 50
        = true ↔ (2 < 3 ∨ (100 : ℚ) < 50)) ∧
    (({ up_transition_count := 3, max_up_transitions := 2,
        expansion_within_dist := 100 } : HierarchyLimits).StopExpanding 50
        = true →
      ({ up_transition_count := 3, max_up_transitions := 2,
         expansion_within_dist := 100 } :
           HierarchyLimits).IncrementUpCount.StopExpanding 50 = true) ∧
    (3 ≤ 2 → (50 : ℚ) ≤ 100 →
      ({ up_transition_count := 3, max_up_transitions := 2,
         expansion_within_dist := 100 } : HierarchyLimits).mayExpand 50
        = true) ∧
    (2 < 3 →
      ({ up_transition_count := 3, max_up_transitions := 2,
         expansion_within_dist := 100 } : HierarchyLimits).mayExpand 50
        = false) ∧
    ((50 : ℚ) ≤ 100 →
      ({ up_transition_count := 3, max_up_transitions := 2,
         expansion_within_dist := 100 } : HierarchyLimits).Reset.mayExpand 50
        = true) :=
  hierarchy_expansion sampleConfig sampleDC
    { up_transition_count := 0, max_up_transitions := 2,
      expansion_within_dist := 1000 }
    { up_transition_count := 3, max_up_transitions := 2,
      expansion_within_dist := 100 }
    50 (by decide) (by decide)

/-- Claim C6: on a successfully configured model the hierarchy limits
sequence has one record per configured level, and GetHierarchyLimits has
reference semantics in the embedding: a mutation applied through the
result of one call is observed through the result of any later call. -/
theorem GetHierarchyLimits_ref (pt : Config) (dc : DynamicCost)
    (f : List HierarchyLimits → List HierarchyLimits)
    (hc : construct pt = some dc) :
    dc.GetHierarchyLimits.length = pt.num_levels ∧
    (dc.modifyHierarchyLimits f).GetHierarchyLimits = f dc.GetHierarchyLimits := by
  obtain ⟨hv, hdc⟩ := construct_some hc
  refine ⟨?_, rfl⟩
  rw [hdc]
  simp only [DynamicCost.GetHierarchyLimits, initHierarchyLimits,
    List.length_zipWith, hv.2.2.2.1, hv.2.2.2.2, min_self]

theorem GetHierarchyLimits_ref_w :
    sampleDC.GetHierarchyLimits.length = sampleConfig.num_levels ∧
    (sampleDC.modifyHierarchyLimits
        (List.map HierarchyLimits.IncrementUpCount)).GetHierarchyLimits =
      List.map HierarchyLimits.IncrementUpCount sampleDC.GetHierarchyLimits :=
  GetHierarchyLimits_ref sampleConfig sampleDC
    (List.map HierarchyLimits.IncrementUpCount) (by decide)

end Valhalla
